import Mathlib

/-!
# Verification of the calendar-merge core (`merge.py`)

A shallow embedding of the entry model, identifier resolver, fuzzy matcher,
overlay engine and merge driver of `merge.py`, together with theorems that
settle the specification claims about them.

Conventions of the embedding:
* A calendar event (`icalendar.Event`) is modelled as `Event`, a record of the
  properties the core reads or writes.  Properties absent from the event are
  `none`.  All remaining (pass-through) properties are modelled by the `other`
  association list.
* A `DTSTART`/`DTEND` value (`.dt` of the property) is a Python `date`,
  a naive `datetime` or a timezone-aware `datetime`; it is modelled by `DT`,
  with days resp. seconds as the payload.  Python raises `TypeError` when
  subtracting values of different kinds; this is modelled by `Except Unit`.
* Python's in-place mutation of base events is rendered by positional update
  of the list of base events: object identity in the Python lists corresponds
  to list position here.
-/

/-- A `DTSTART`/`DTEND` value: a date (days), a naive datetime (seconds) or a
timezone-aware datetime (seconds of absolute time). -/
inductive DT where
  | date (days : Int)
  | naive (secs : Int)
  | aware (secs : Int)
deriving DecidableEq, Repr

/-- Python subtraction of two date-or-datetime values, in seconds.
Subtracting a `date` from a `datetime` (or vice versa), or a naive from an
aware datetime, raises `TypeError`, modelled as `Except.error ()`. -/
def DT.sub : DT → DT → Except Unit Int
  | DT.date a, DT.date b => Except.ok ((a - b) * 86400)
  | DT.naive a, DT.naive b => Except.ok (a - b)
  | DT.aware a, DT.aware b => Except.ok (a - b)
  | _, _ => Except.error ()

/-- Whether two date-or-datetime values are of the same kind (both dates, both
naive, or both aware); Python subtraction succeeds exactly on such pairs. -/
def DT.sameKind : DT → DT → Bool
  | DT.date _, DT.date _ => true
  | DT.naive _, DT.naive _ => true
  | DT.aware _, DT.aware _ => true
  | _, _ => false

/-- `abs` of a Python `timedelta`, on the seconds representation. -/
def pyAbs (d : Int) : Int := if d < 0 then -d else d

/-- The calendar-entry model: the properties that the merge core reads or
writes, each `none` when the property is absent from the event, plus `other`
for all remaining pass-through properties. -/
structure Event where
  uidField : Option String := none
  summary : Option String := none
  location : Option String := none
  description : Option String := none
  status : Option String := none
  dtstart : Option DT := none
  dtend : Option DT := none
  xOrigUid : Option String := none
  other : List (String × String) := []
deriving DecidableEq, Repr

/-- `text(v)`: `"" if v is None else str(v)`. -/
def text : Option String → String
  | none => ""
  | some s => s

/-- ASCII whitespace, as matched by Python's `\s` and stripped by `.strip()`
(Python additionally treats some rare Unicode whitespace the same way;
immaterial here). -/
def isSpace (c : Char) : Bool :=
  c = ' ' || c = '\t' || c = '\n' || c = '\r' || c = '\x0b' || c = '\x0c'

/-- Python `str.strip()` on a character list. -/
def stripChars (l : List Char) : List Char :=
  ((l.dropWhile isSpace).reverse.dropWhile isSpace).reverse

/-- `re.sub(r"\s+", " ", s)` on a character list: each maximal whitespace run
becomes a single space. -/
def squeeze : List Char → List Char
  | [] => []
  | [c] => [if isSpace c then ' ' else c]
  | c :: d :: rest =>
    if isSpace c then
      if isSpace d then squeeze (d :: rest)
      else ' ' :: squeeze (d :: rest)
    else c :: squeeze (d :: rest)

/-- `norm_summary(s) = re.sub(r"\s+", " ", s.strip().lower())`.
(`lower` modelled on ASCII letters via `Char.toLower`.) -/
def norm_summary (s : String) : String :=
  String.mk (squeeze ((stripChars s.data).map Char.toLower))

/-- `uid(ev) = str(ev.get("UID") or "").strip()`. -/
def uid (ev : Event) : String :=
  String.mk (stripChars (text ev.uidField).data)

/-- `approx_equal_time(a, b, minutes)`: `False` when either value is absent,
otherwise `abs(a - b) <= timedelta(minutes=minutes)`; the subtraction raises
(`Except.error`) on values of incompatible kinds. -/
def approx_equal_time (a b : Option DT) (minutes : Int) : Except Unit Bool :=
  match a, b with
  | none, _ => Except.ok false
  | _, none => Except.ok false
  | some x, some y =>
    match DT.sub x y with
    | Except.error e => Except.error e
    | Except.ok d => Except.ok (decide (pyAbs d ≤ minutes * 60))

/-- `apply_override(base, override)`: copy `SUMMARY`, `LOCATION`,
`DESCRIPTION`, `STATUS` from the override when present; copy `DTSTART` when
present, and then `DTEND` only when it is also present.  The mutation of
`base` is rendered as returning the updated event. -/
def apply_override (base ov : Event) : Event :=
  let b1 : Event :=
    { base with
      summary := match ov.summary with | some v => some v | none => base.summary
      location := match ov.location with | some v => some v | none => base.location
      description := match ov.description with | some v => some v | none => base.description
      status := match ov.status with | some v => some v | none => base.status }
  match ov.dtstart with
  | some s =>
    match ov.dtend with
    | some e => { b1 with dtstart := some s, dtend := some e }
    | none => { b1 with dtstart := some s }
  | none => b1

/-- C7: overlay never touches the identifier nor any pass-through field. -/
theorem apply_override_frame (b o : Event) :
    (apply_override b o).uidField = b.uidField ∧
    (apply_override b o).xOrigUid = b.xOrigUid ∧
    (apply_override b o).other = b.other := by
  obtain ⟨u, s, l, d, st, ds, de, x, ot⟩ := b
  obtain ⟨u', s', l', d', st', ds', de', x', ot'⟩ := o
  cases ds' <;> cases de' <;> simp [apply_override]

/-- C8: an override that defines `start` copies it; `end` is copied iff the
override also defines `end`, otherwise the target's `end` is untouched. -/
theorem apply_override_partial_time (b o : Event) (s : DT)
    (hs : o.dtstart = some s) :
    (apply_override b o).dtstart = some s ∧
    (o.dtend = none → (apply_override b o).dtend = b.dtend) ∧
    (∀ e, o.dtend = some e → (apply_override b o).dtend = some e) := by
  obtain ⟨u, sm, l, d, st, ds, de, x, ot⟩ := b
  obtain ⟨u', sm', l', d', st', ds', de', x', ot'⟩ := o
  cases de' <;> simp_all [apply_override]

/-- Witness for C8 at a concrete target and override. -/
theorem apply_override_partial_time_witness :
    (apply_override
        { summary := some "A", dtstart := some (DT.naive 0),
          dtend := some (DT.naive 3600) }
        { dtstart := some (DT.naive 600) }).dtstart = some (DT.naive 600) ∧
    (({ dtend := none } : Event).dtend = none →
      (apply_override
        { summary := some "A", dtstart := some (DT.naive 0),
          dtend := some (DT.naive 3600) }
        { dtstart := some (DT.naive 600) }).dtend = some (DT.naive 3600)) ∧
    (∀ e, ({ dtstart := some (DT.naive 600) } : Event).dtend = some e →
      (apply_override
        { summary := some "A", dtstart := some (DT.naive 0),
          dtend := some (DT.naive 3600) }
        { dtstart := some (DT.naive 600) }).dtend = some e) :=
  apply_override_partial_time
    { summary := some "A", dtstart := some (DT.naive 0),
      dtend := some (DT.naive 3600) }
    { dtstart := some (DT.naive 600) } (DT.naive 600) rfl

/-- C9: overlay is idempotent — applying the same override twice yields the
same target state as applying it once. -/
theorem apply_override_idempotent (b o : Event) :
    apply_override (apply_override b o) o = apply_override b o := by
  obtain ⟨u, s, l, d, st, ds, de, x, ot⟩ := b
  obtain ⟨u', s', l', d', st', ds', de', x', ot'⟩ := o
  cases s' <;> cases l' <;> cases d' <;> cases st' <;> cases ds' <;> cases de' <;>
    simp [apply_override]

/-- C10: an override that defines `end` but not `start` changes neither the
target's `start` nor its `end`: the override's `end` is silently discarded. -/
theorem apply_override_end_without_start (b o : Event) (e : DT)
    (he : o.dtend = some e) (hs : o.dtstart = none) :
    (apply_override b o).dtstart = b.dtstart ∧
    (apply_override b o).dtend = b.dtend := by
  obtain ⟨u, sm, l, d, st, ds, de, x, ot⟩ := b
  obtain ⟨u', sm', l', d', st', ds', de', x', ot'⟩ := o
  simp_all [apply_override]

/-- Witness for C10 at a concrete target and override. -/
theorem apply_override_end_without_start_witness :
    (apply_override
        { dtstart := some (DT.naive 0), dtend := some (DT.naive 3600) }
        { dtend := some (DT.naive 7200) }).dtstart = some (DT.naive 0) ∧
    (apply_override
        { dtstart := some (DT.naive 0), dtend := some (DT.naive 3600) }
        { dtend := some (DT.naive 7200) }).dtend = some (DT.naive 3600) := by
  have h := apply_override_end_without_start
    { dtstart := some (DT.naive 0), dtend := some (DT.naive 3600) }
    { dtend := some (DT.naive 7200) } (DT.naive 7200) rfl rfl
  simpa using h

/-- Case-insensitive literal match: when the pattern chars are a
(case-folded) front segment of the input, return the remaining input. -/
def dropLitCI : List Char → List Char → Option (List Char)
  | [], rest => some rest
  | _ :: _, [] => none
  | p :: ps, c :: cs => if p.toLower = c.toLower then dropLitCI ps cs else none

/-- After a matched `ORIG-UID:` literal: `\s*` then a nonempty `[^\s]+`
token, or no match at this position. -/
def origUidTail (rest : List Char) : Option (List Char) :=
  let rest2 := rest.dropWhile isSpace
  let tok := rest2.takeWhile (fun c => !isSpace c)
  if tok.isEmpty then none else some tok

/-- `re.search(r"ORIG-UID:\s*([^\s]+)", desc, re.I)`: leftmost position where
the pattern matches; returns the `[^\s]+` capture group. -/
def searchOrigUid : List Char → Option (List Char)
  | [] => none
  | c :: cs =>
    match dropLitCI "ORIG-UID:".data (c :: cs) with
    | some rest =>
      match origUidTail rest with
      | some tok => some tok
      | none => searchOrigUid cs
    | none => searchOrigUid cs

/-- After a matched `[UID:` literal: a nonempty `[^\]]+` capture, a closing
`]`, then `$` (end of string, or just before one final newline). -/
def uidBracketTail (rest : List Char) : Option (List Char) :=
  let content := rest.takeWhile (fun c => c ≠ ']')
  if content.isEmpty then none
  else
    match rest.dropWhile (fun c => c ≠ ']') with
    | ']' :: tail => if tail = [] ∨ tail = ['\n'] then some content else none
    | _ => none

/-- `re.search(r"\[UID:([^\]]+)\]$", summ, re.I)`: leftmost position where
the end-anchored pattern matches; returns the `[^\]]+` capture group. -/
def searchUidBracket : List Char → Option (List Char)
  | [] => none
  | c :: cs =>
    match dropLitCI "[UID:".data (c :: cs) with
    | some rest =>
      match uidBracketTail rest with
      | some tok => some tok
      | none => searchUidBracket cs
    | none => searchUidBracket cs

/-- `find_orig_uid_in_override(ov)`: try, in order, a truthy (non-empty)
`X-ORIG-UID` property, an `ORIG-UID:<value>` marker in the description, and a
`[UID:<value>]` marker at the end of the summary; the captured group is
`.strip()`-ed in the latter two strategies. -/
def find_orig_uid_in_override (ov : Event) : Option String :=
  let fromTitle : Option String :=
    match searchUidBracket (text ov.summary).data with
    | some tok => some (String.mk (stripChars tok))
    | none => none
  let fromDesc : Option String :=
    match searchOrigUid (text ov.description).data with
    | some tok => some (String.mk (stripChars tok))
    | none => fromTitle
  match ov.xOrigUid with
  | some x => if x = "" then fromDesc else some x
  | none => fromDesc

/-- C5: strategy precedence in the identifier resolver — a non-empty
dedicated `X-ORIG-UID` field always wins, whatever the description and title
hold; when that field is absent or empty, a description `ORIG-UID:` marker
wins over the title strategy. -/
theorem find_orig_uid_precedence (ov : Event) :
    (∀ x, ov.xOrigUid = some x → x ≠ "" →
      find_orig_uid_in_override ov = some x) ∧
    ((ov.xOrigUid = none ∨ ov.xOrigUid = some "") →
      ∀ tok, searchOrigUid (text ov.description).data = some tok →
        find_orig_uid_in_override ov = some (String.mk (stripChars tok))) := by
  constructor
  · intro x hx hne
    simp [find_orig_uid_in_override, hx, hne]
  · intro hx tok htok
    rcases hx with h | h <;> simp [find_orig_uid_in_override, h, htok]

/-- Witness for C5: with both a dedicated field `abc` and a conflicting
description marker `ORIG-UID: xyz`, the dedicated field's value is returned. -/
theorem find_orig_uid_precedence_witness :
    find_orig_uid_in_override
      { xOrigUid := some "abc",
        description := some "note ORIG-UID: xyz here" } = some "abc" :=
  (find_orig_uid_precedence
      { xOrigUid := some "abc",
        description := some "note ORIG-UID: xyz here" }).1
    "abc" rfl (by decide)

/-- C6: the `[UID:<value>]` pattern is anchored at the end of the title:
`"Algebra II [UID:abc123]"` resolves `abc123`, while
`"Algebra II [UID:abc123] extra"` yields nothing. -/
theorem uid_bracket_end_anchored :
    find_orig_uid_in_override
      { summary := some "Algebra II [UID:abc123]" } = some "abc123" ∧
    find_orig_uid_in_override
      { summary := some "Algebra II [UID:abc123] extra" } = none := by
  constructor <;> decide

/-- The per-event candidate test of `fuzzy_match_base`'s loop:
`o_sum == b_sum and approx_equal_time(o_dt, b_dt, minutes=30)` for each base
event, with Python's short-circuit `and` (the time comparison — which can
raise — only runs when the normalized summaries agree).  Returns the list of
test results, or the raised error. -/
def cand_flags (osum : String) (odt : Option DT) : List Event → Except Unit (List Bool)
  | [] => Except.ok []
  | ev :: rest =>
    let here : Except Unit Bool :=
      if osum = norm_summary (text ev.summary)
      then approx_equal_time odt ev.dtstart 30
      else Except.ok false
    match here, cand_flags osum odt rest with
    | Except.ok b, Except.ok bs => Except.ok (b :: bs)
    | Except.error e, _ => Except.error e
    | Except.ok _, Except.error e => Except.error e

/-- `fuzzy_match_base(base_events, override)`: collect the base events whose
normalized summary equals the override's and whose `DTSTART` is within 30
minutes, and return `candidates[0]` (or `None`); a `TypeError` raised by an
incompatible time comparison propagates. -/
def fuzzy_match_base (base : List Event) (o : Event) : Except Unit (Option Event) :=
  match cand_flags (norm_summary (text o.summary)) o.dtstart base with
  | Except.error e => Except.error e
  | Except.ok flags =>
    Except.ok ((((base.zip flags).filter (fun p => p.2)).head?).map Prod.fst)

/-- The specification's time condition for a fuzzy candidate: both starts
defined and at most 30 minutes (inclusive) apart; an absent or incomparable
pair does not qualify. -/
def spec_time_ok (odt bdt : Option DT) : Bool :=
  match odt, bdt with
  | some x, some y =>
    match DT.sub x y with
    | Except.ok d => decide (pyAbs d ≤ 30 * 60)
    | Except.error _ => false
  | _, _ => false

/-- The fuzzy-candidate condition as the specification words it: normalized
titles equal, both starts defined, and the starts at most 30 minutes apart. -/
def spec_fuzzy_candidate (o b : Event) : Bool :=
  (norm_summary (text o.summary) = norm_summary (text b.summary)) &&
  spec_time_ok o.dtstart b.dtstart

/-- A time comparison that returns normally returns exactly the
specification's time condition (absent or incomparable pairs: `false`). -/
theorem approx_ok_eq (odt bdt : Option DT) (b : Bool)
    (h : approx_equal_time odt bdt 30 = Except.ok b) :
    b = spec_time_ok odt bdt := by
  rcases odt with _ | x
  · simpa [approx_equal_time, spec_time_ok] using h.symm
  · rcases bdt with _ | y
    · simpa [approx_equal_time, spec_time_ok] using h.symm
    · rcases hsub : DT.sub x y with e | d
      · simp [approx_equal_time, hsub] at h
      · simp [approx_equal_time, hsub] at h
        simp [spec_time_ok, hsub, h]

/-- When the candidate loop completes without raising, its flags are exactly
the specification's candidate condition, event by event. -/
theorem cand_flags_eq_spec (o : Event) :
    ∀ (base : List Event) (flags : List Bool),
      cand_flags (norm_summary (text o.summary)) o.dtstart base = Except.ok flags →
      flags = base.map (spec_fuzzy_candidate o) := by
  intro base
  induction base with
  | nil => intro flags h; simpa [cand_flags] using h.symm
  | cons ev rest ih =>
    intro flags h
    rw [cand_flags] at h
    by_cases hsum : norm_summary (text o.summary) = norm_summary (text ev.summary)
    · rw [if_pos hsum] at h
      rcases happ : approx_equal_time o.dtstart ev.dtstart 30 with e | b
      · rw [happ] at h
        simp at h
      · rcases hrest : cand_flags (norm_summary (text o.summary)) o.dtstart rest with e | bs
        · rw [happ, hrest] at h
          simp at h
        · rw [happ, hrest] at h
          simp at h
          subst h
          rw [List.map_cons]
          congr 1
          · rw [approx_ok_eq o.dtstart ev.dtstart b happ]
            simp [spec_fuzzy_candidate, hsum]
          · exact ih bs hrest
    · rw [if_neg hsum] at h
      rcases hrest : cand_flags (norm_summary (text o.summary)) o.dtstart rest with e | bs
      · rw [hrest] at h
        simp at h
      · rw [hrest] at h
        simp at h
        subst h
        rw [List.map_cons]
        congr 1
        · simp [spec_fuzzy_candidate, hsum]
        · exact ih bs hrest

/-- `candidates[0]` over the flag list coincides with `List.find?` over the
underlying predicate. -/
theorem zip_flags_head_eq_find (p : Event → Bool) :
    ∀ l : List Event,
      ((((l.zip (l.map p)).filter (fun q => q.2)).head?).map Prod.fst) = l.find? p := by
  intro l
  induction l with
  | nil => simp
  | cons a l ih =>
    cases hpa : p a
    · rw [List.map_cons, List.zip_cons_cons, List.filter_cons]
      simp only [hpa]
      rw [List.find?_cons_of_neg _ (by simp [hpa])]
      simpa using ih
    · rw [List.map_cons, List.zip_cons_cons, List.filter_cons]
      simp only [hpa]
      rw [List.find?_cons_of_pos _ hpa]
      simp

/-- C4 as amended: when the fuzzy matcher returns normally, it returns exactly the first
base event, in original order, satisfying the specification's candidate
condition (normalized titles equal, both starts defined, at most 30 minutes
apart, boundary inclusive), and `none` when no base event qualifies. -/
theorem fuzzy_match_first_candidate (base : List Event) (o : Event) (s : DT)
    (hs : o.dtstart = some s) (r : Option Event)
    (h : fuzzy_match_base base o = Except.ok r) :
    r = base.find? (spec_fuzzy_candidate o) := by
  rcases hflags : cand_flags (norm_summary (text o.summary)) o.dtstart base with e | flags
  · rw [fuzzy_match_base, hflags] at h
    simp at h
  · rw [fuzzy_match_base, hflags] at h
    simp at h
    subst h
    rw [cand_flags_eq_spec o base flags hflags]
    simpa using zip_flags_head_eq_find (spec_fuzzy_candidate o) base

/-- The override of the C4 witness: `"Seminar"` starting at second 0. -/
def ovSeminar : Event := { summary := some "Seminar", dtstart := some (DT.naive 0) }

/-- A base `"Seminar"` starting 31 minutes after the override. -/
def base31 : Event :=
  { uidField := some "u31", summary := some "Seminar", dtstart := some (DT.naive 1860) }

/-- A base `"Seminar"` starting exactly 30 minutes after the override. -/
def base30 : Event :=
  { uidField := some "u30", summary := some "Seminar", dtstart := some (DT.naive 1800) }

/-- Witness for C4: the 31-minute entry is skipped, the 30-minute entry (the
inclusive boundary) is the first candidate and is returned. -/
theorem fuzzy_match_first_candidate_witness :
    (some base30 : Option Event) = [base31, base30].find? (spec_fuzzy_candidate ovSeminar) :=
  fuzzy_match_first_candidate [base31, base30] ovSeminar (DT.naive 0) rfl
    (some base30) rfl

/-- Counterexample for C2: comparing a date-only with a naive-datetime start,
or a naive with an aware one, raises (`Except.error`) instead of returning
"no match". -/
theorem approx_equal_time_raises :
    approx_equal_time (some (DT.date 0)) (some (DT.naive 0)) 30 = Except.error () ∧
    approx_equal_time (some (DT.naive 0)) (some (DT.aware 0)) 30 = Except.error () :=
  ⟨rfl, rfl⟩

/-- C2 as amended: an absent operand compares as "no match", but a pair of
start values of different kinds (date vs. naive vs. aware datetime) raises a
`TypeError`, which propagates out of the comparison. -/
theorem approx_equal_time_incompatible_raises (a b : DT) (m : Int)
    (h : DT.sameKind a b = false) :
    approx_equal_time (some a) (some b) m = Except.error () := by
  cases a <;> cases b <;> simp_all [DT.sameKind, approx_equal_time, DT.sub]

/-- Witness for the amended C2 at a concrete date/naive-datetime pair. -/
theorem approx_equal_time_incompatible_raises_witness :
    DT.sameKind (DT.date 0) (DT.naive 0) = false ∧
    approx_equal_time (some (DT.date 0)) (some (DT.naive 0)) 15 = Except.error () :=
  ⟨rfl, approx_equal_time_incompatible_raises (DT.date 0) (DT.naive 0) 15 rfl⟩

/-- An override with no `SUMMARY` at all (and a start). -/
def ovNoTitle : Event := { dtstart := some (DT.naive 0) }

/-- A base event with no `SUMMARY` and the same start. -/
def baseNoTitle : Event := { uidField := some "b1", dtstart := some (DT.naive 0) }

/-- Counterexample for C3: an override whose title is absent IS fuzzy-matched
to a base entry whose title is also absent (both normalize to `""`). -/
theorem fuzzy_match_absent_title_matches :
    fuzzy_match_base [baseNoTitle] ovNoTitle = Except.ok (some baseNoTitle) := rfl

/-- C3 as amended: an override with absent title is handled without any
per-entry fault, being treated exactly as an override with empty title — so
it can fuzzy-match base entries whose normalized title is also empty. -/
theorem fuzzy_match_absent_title_as_empty (base : List Event) (o : Event)
    (h : o.summary = none) :
    fuzzy_match_base base o = fuzzy_match_base base { o with summary := some "" } := by
  simp [fuzzy_match_base, h, text]

/-- Witness for the amended C3 at a concrete override and base list. -/
theorem fuzzy_match_absent_title_as_empty_witness :
    fuzzy_match_base [baseNoTitle] ovNoTitle =
      fuzzy_match_base [baseNoTitle] { ovNoTitle with summary := some "" } :=
  fuzzy_match_absent_title_as_empty [baseNoTitle] ovNoTitle rfl

/-- `index_base_by_uid(base_events) = { uid(e): e for e in base_events if uid(e) }`,
with the dict value rendered as the event's position (object identity is list
position in this embedding). -/
def index_base_by_uid (base : List Event) : List (Nat × String) :=
  (base.enum.filter (fun p => uid p.2 ≠ "")).map (fun p => (p.1, uid p.2))

/-- Python dict lookup over the insertion list: a later insertion of the same
key overwrites an earlier one. -/
def dict_lookup : List (Nat × String) → String → Option Nat
  | [], _ => none
  | (i, u) :: rest, k =>
    match dict_lookup rest k with
    | some j => some j
    | none => if u = k then some i else none

/-- `fuzzy_match_base` as used by the merge driver: the position of
`candidates[0]` rather than the event itself, since the driver mutates the
matched object (positional update here). -/
def fuzzy_match_index (base : List Event) (o : Event) : Except Unit (Option Nat) :=
  match cand_flags (norm_summary (text o.summary)) o.dtstart base with
  | Except.error e => Except.error e
  | Except.ok flags => Except.ok (flags.findIdx? (fun b => b))

/-- Steps (a)–(b) of the loop body of `main`: a truthy resolved identifier
that is in the base index gives the direct target, otherwise fall back to the
fuzzy matcher. -/
def resolve_target (idx : List (Nat × String)) (base : List Event) (o : Event) :
    Except Unit (Option Nat) :=
  let direct : Option Nat :=
    match find_orig_uid_in_override o with
    | some orig => if orig = "" then none else dict_lookup idx orig
    | none => none
  match direct with
  | some i => Except.ok (some i)
  | none => fuzzy_match_index base o

/-- `apply_override(target, o)` on the event at position `i` of the base
list (the in-place mutation of the matched object). -/
def overlay_at (o : Event) : List Event → Nat → List Event
  | [], _ => []
  | e :: rest, 0 => apply_override e o :: rest
  | e :: rest, Nat.succ n => e :: overlay_at o rest n

/-- The override loop of `main`: resolve each override in order; overlay onto
the matched base event, or record the override as unmatched (`out.add_component`).
Returns the final base list and the unmatched overrides, in their orders. -/
def merge_loop (idx : List (Nat × String)) :
    List Event → List Event → Except Unit (List Event × List Event)
  | base, [] => Except.ok (base, [])
  | base, o :: os =>
    match resolve_target idx base o with
    | Except.error e => Except.error e
    | Except.ok (some i) => merge_loop idx (overlay_at o base i) os
    | Except.ok none =>
      match merge_loop idx base os with
      | Except.error e => Except.error e
      | Except.ok (b, un) => Except.ok (b, o :: un)

/-- The sequence of entries `main` writes to the output calendar: the
unmatched overrides are added to `out` during the loop, and the (partly
overlaid) base events are appended after the loop — so unmatched overrides
precede the base events. -/
def main_events (base overrides : List Event) : Except Unit (List Event) :=
  match merge_loop (index_base_by_uid base) base overrides with
  | Except.error e => Except.error e
  | Except.ok (b, un) => Except.ok (un ++ b)

theorem overlay_at_length (o : Event) :
    ∀ (l : List Event) (i : Nat), (overlay_at o l i).length = l.length := by
  intro l
  induction l with
  | nil => intro i; rfl
  | cons e rest ih => intro i; cases i <;> simp [overlay_at, ih]

theorem overlay_at_get (o : Event) :
    ∀ (l : List Event) (i j : Nat),
      (overlay_at o l i)[j]? =
        if i = j then (l[j]?).map (fun e => apply_override e o) else l[j]? := by
  intro l
  induction l with
  | nil => intro i j; simp [overlay_at]
  | cons e rest ih =>
    intro i j
    cases i with
    | zero =>
      cases j with
      | zero => simp [overlay_at]
      | succ m => simp [overlay_at]
    | succ n =>
      cases j with
      | zero => simp [overlay_at]
      | succ m => simpa [overlay_at] using ih n m

/-- Structure of a completed override loop: the unmatched overrides form a
sublist (order kept, each at most once) of the override set, the base list
keeps its length, and each position holds the original base event overlaid by
some subsequence of the overrides. -/
theorem merge_loop_spec (idx : List (Nat × String)) :
    ∀ (ovs base b' un : List Event),
      merge_loop idx base ovs = Except.ok (b', un) →
      List.Sublist un ovs ∧ b'.length = base.length ∧
      ∀ (i : Nat) (e₀ : Event), base[i]? = some e₀ →
        ∃ os', List.Sublist os' ovs ∧ b'[i]? = some (os'.foldl apply_override e₀) := by
  intro ovs
  induction ovs with
  | nil =>
    intro base b' un h
    rw [merge_loop] at h
    simp at h
    obtain ⟨hb, hun⟩ := h
    subst hb
    subst hun
    refine ⟨List.nil_sublist [], rfl, ?_⟩
    intro i e₀ hi
    exact ⟨[], List.nil_sublist [], by simpa using hi⟩
  | cons o os ih =>
    intro base b' un h
    rw [merge_loop] at h
    rcases htgt : resolve_target idx base o with e | tgt
    · rw [htgt] at h
      simp at h
    · rw [htgt] at h
      rcases tgt with _ | i
      · rcases hrec : merge_loop idx base os with e | p
        · rw [hrec] at h
          simp at h
        · obtain ⟨b, un₀⟩ := p
          rw [hrec] at h
          simp at h
          obtain ⟨hb, hun⟩ := h
          subst hb
          subst hun
          obtain ⟨h1, h2, h3⟩ := ih base b un₀ hrec
          refine ⟨List.Sublist.cons₂ o h1, h2, ?_⟩
          intro j e₀ hj
          obtain ⟨os', hsub, hget⟩ := h3 j e₀ hj
          exact ⟨os', List.Sublist.cons o hsub, hget⟩
      · simp at h
        obtain ⟨h1, h2, h3⟩ := ih (overlay_at o base i) b' un h
        refine ⟨List.Sublist.cons o h1, ?_, ?_⟩
        · rw [h2, overlay_at_length]
        · intro j e₀ hj
          by_cases hij : i = j
          · subst hij
            have hbj : (overlay_at o base i)[i]? = some (apply_override e₀ o) := by
              rw [overlay_at_get]
              simp [hj]
            obtain ⟨os₁, hsub, hget⟩ := h3 i (apply_override e₀ o) hbj
            refine ⟨o :: os₁, List.Sublist.cons₂ o hsub, ?_⟩
            simpa [List.foldl_cons] using hget
          · have hbj : (overlay_at o base i)[j]? = some e₀ := by
              rw [overlay_at_get]
              simp [hij, hj]
            obtain ⟨os₁, hsub, hget⟩ := h3 j e₀ hbj
            exact ⟨os₁, List.Sublist.cons o hsub, hget⟩

/-- A base event for the C1 examples. -/
def evBase1 : Event :=
  { uidField := some "b1", summary := some "Base", dtstart := some (DT.naive 0) }

/-- An override matching nothing: different title, no identifier marker. -/
def evNew1 : Event := { summary := some "New", dtstart := some (DT.naive 0) }

/-- Counterexample for C1: with one base entry and one unmatched override,
`main` emits the override BEFORE the base entry — the output is the unmatched
overrides followed by the base entries, not the other way round. -/
theorem main_events_order_counterexample :
    main_events [evBase1] [evNew1] = Except.ok [evNew1, evBase1] ∧
    ([evNew1, evBase1] : List Event) ≠ [evBase1, evNew1] := by
  constructor
  · rfl
  · decide

/-- C1 as amended: a merged output that `main` produces is the unmatched
override entries, in their original order and each at most once (a sublist of
the override set), followed by all base entries in their original order, each
being the original base entry overlaid by a subsequence of the overrides. -/
theorem main_events_assembly (base overrides out : List Event)
    (h : main_events base overrides = Except.ok out) :
    ∃ un b', out = un ++ b' ∧ List.Sublist un overrides ∧
      b'.length = base.length ∧
      ∀ (i : Nat) (e₀ : Event), base[i]? = some e₀ →
        ∃ os', List.Sublist os' overrides ∧
          b'[i]? = some (os'.foldl apply_override e₀) := by
  rcases hm : merge_loop (index_base_by_uid base) base overrides with e | p
  · rw [main_events, hm] at h
    simp at h
  · obtain ⟨b, un⟩ := p
    rw [main_events, hm] at h
    simp at h
    subst h
    obtain ⟨h1, h2, h3⟩ := merge_loop_spec (index_base_by_uid base) overrides base b un hm
    exact ⟨un, b, rfl, h1, h2, h3⟩

/-- Witness for the amended C1 at the concrete one-base/one-override run. -/
theorem main_events_assembly_witness :
    ∃ un b', ([evNew1, evBase1] : List Event) = un ++ b' ∧
      List.Sublist un [evNew1] ∧
      b'.length = ([evBase1] : List Event).length ∧
      ∀ (i : Nat) (e₀ : Event), ([evBase1] : List Event)[i]? = some e₀ →
        ∃ os', List.Sublist os' [evNew1] ∧
          b'[i]? = some (os'.foldl apply_override e₀) :=
  main_events_assembly [evBase1] [evNew1] [evNew1, evBase1] rfl

/-- An override whose start is a date-only value. -/
def ovDateStart : Event := { summary := some "Kolloquium", dtstart := some (DT.date 0) }

/-- A base event with the same title but a naive-datetime start. -/
def baseNaiveStart : Event :=
  { uidField := some "k1", summary := some "Kolloquium", dtstart := some (DT.naive 0) }

/-- Counterexample for C4: here no base entry qualifies as a candidate, yet
the matcher does not return absent — the incompatible-kind comparison raises
and the call never returns. -/
theorem fuzzy_match_raises_despite_no_candidate :
    fuzzy_match_base [baseNaiveStart] ovDateStart = Except.error () ∧
    ([baseNaiveStart].find? (spec_fuzzy_candidate ovDateStart)) = none :=
  ⟨rfl, rfl⟩
